import Mathlib

/-!
# Verification of the speasy Impex chunked retrieval & inventory engine

Shallow embedding of `speasy/core/impex/__init__.py` (class `ImpexProvider`),
`speasy/core/impex/client.py` (class `ImpexClient`) and
`speasy/webservices/amda/ws.py` (`AMDA_Webservice.has_time_restriction`).

Modelling conventions:
* UTC instants are integers (an arbitrary fixed unit, e.g. days); a time range
  is the closed-open interval `[start, stop)`.
* `timedelta(days=max_chunk_size_days)` becomes the integer `dt`.
* The network is not executed: `dl_parameter` returns the ordered list of
  per-chunk fetch calls it issues (each with its `use_credentials` flag),
  or the raised exception.
-/

namespace Speasy

instance {ε α : Type _} [DecidableEq ε] [DecidableEq α] : DecidableEq (Except ε α) := fun a b =>
  match a, b with
  | .ok x, .ok y => if h : x = y then .isTrue (by simp [h]) else .isFalse (by simp [h])
  | .error x, .error y => if h : x = y then .isTrue (by simp [h]) else .isFalse (by simp [h])
  | .ok _, .error _ => .isFalse (by simp)
  | .error _, .ok _ => .isFalse (by simp)

/-- One call to `ImpexProvider.dl_parameter_chunk` as issued by `dl_parameter`:
the chunk window `[start, stop)` and the `use_credentials` keyword it receives. -/
structure FetchCall where
  start : Int
  stop : Int
  use_credentials : Bool
deriving DecidableEq, Repr

/-- The only exception `dl_parameter` raises itself
(`speasy/core/impex/exceptions.py`). -/
inductive ImpexError where
  | missingCredentials
deriving DecidableEq, Repr

/-- `ImpexClient.credential_are_valid` (client.py line 46-47):
`self.username != "" and self.password != ""`. -/
def credential_are_valid (username password : String) : Bool :=
  username != "" && password != ""

/-- The `while curr_t < stop_time` loop of `dl_parameter`
(impex/__init__.py lines 290-295), emitting the window
`[curr_t, min(curr_t + dt, stop_time))` each iteration and advancing
`curr_t += dt`.  Encoded with explicit fuel; `chunks` below supplies fuel
sufficient whenever `0 < dt` (each iteration advances by `dt ≥ 1`). -/
def chunksFuel : Nat → Int → Int → Int → List (Int × Int)
  | 0, _, _, _ => []
  | fuel + 1, curr, stop, dt =>
    if curr < stop then (curr, min (curr + dt) stop) :: chunksFuel fuel (curr + dt) stop dt
    else []

/-- The list of chunk windows generated by `dl_parameter`'s loop. -/
def chunks (start stop dt : Int) : List (Int × Int) :=
  chunksFuel (stop - start).toNat start stop dt

/-- `ImpexProvider.dl_parameter` (impex/__init__.py lines 276-300), returning
the list of fetch calls it issues in order, or the exception it raises.

Line-by-line mapping:
* lines 281-287: `if restricted_period:` — invalid credentials raise
  `MissingCredentials` before any fetch; otherwise `use_credentials = True`.
* line 288: `if stop_time - start_time > dt:` selects the chunked branch.
* lines 290-295: the chunk loop; the call to `dl_parameter_chunk` there does
  NOT pass `use_credentials`, so each chunk fetch gets that parameter's
  default value `False`.
* lines 297-300: single-chunk branch, passing
  `use_credentials=restricted_period or use_credentials`. -/
def dl_parameter (start_time stop_time dt : Int) (restricted_period use_credentials : Bool)
    (username password : String) : Except ImpexError (List FetchCall) :=
  if restricted_period && !(credential_are_valid username password) then
    .error .missingCredentials
  else if dt < stop_time - start_time then
    .ok ((chunks start_time stop_time dt).map fun c =>
      { start := c.1, stop := c.2, use_credentials := false })
  else
    -- the source passes `use_credentials=restricted_period or use_credentials`,
    -- where the local `use_credentials` was reassigned to True when
    -- `restricted_period` holds; both readings give `restricted_period ||
    -- use_credentials`
    .ok [{ start := start_time, stop := stop_time,
           use_credentials := restricted_period || use_credentials }]

/-- Modelled from the spec: `DateTimeRange.intersect`
(`speasy/core/datetime_range.py`, not under src/).  Per spec §3 a time range
is the closed-open interval `[start, stop)`; two such intervals intersect
iff each starts before the other ends. -/
def rangesIntersect (a1 a2 b1 b2 : Int) : Bool :=
  decide (a1 < b2) && decide (b1 < a2)

/-- `AMDA_Webservice.has_time_restriction` (amda/ws.py lines 158-169):
the parent dataset's optional `timeRestriction` bound (absent attribute ↦
`none`) and its `stop_date`; restriction applies when `lower < upper` and
`[lower, upper)` intersects the requested range. -/
def has_time_restriction (timeRestriction : Option Int) (stop_date : Int)
    (start_time stop_time : Int) : Bool :=
  match timeRestriction with
  | some lower =>
    if lower < stop_date then rangesIntersect lower stop_date start_time stop_time
    else false
  | none => false

/-- The observable effect of one `get_parameter` call: the flags it forces
and the fetch calls `dl_parameter` then issues. -/
structure GetParameterCall where
  disable_proxy : Bool
  restricted_period : Bool
  result : Except ImpexError (List FetchCall)
deriving DecidableEq, Repr

/-- `ImpexProvider.get_parameter` (impex/__init__.py lines 179-189, identical
control flow in amda/ws.py lines 221-231): when `has_time_restriction` holds
it sets `disable_proxy=True` and `restricted_period=True`, then delegates to
`_get_parameter` (lines 225-236) which forwards to `dl_parameter`. -/
def get_parameter (restricted : Bool) (start_time stop_time dt : Int)
    (username password : String) : GetParameterCall :=
  if restricted then
    { disable_proxy := true, restricted_period := true,
      result := dl_parameter start_time stop_time dt true false username password }
  else
    { disable_proxy := false, restricted_period := false,
      result := dl_parameter start_time stop_time dt false false username password }

/-- The chunk count of the chunked branch: `ceil((stop-start)/dt)` computed in
natural-number arithmetic. -/
def nChunks (start stop dt : Int) : Nat :=
  ((stop - start).toNat + dt.toNat - 1) / dt.toNat

/-! ## Inventory model (flat projections and classification)

`flat_inventories.__dict__[provider]` holds per-type mappings from xml id to
index node.  Python `dict`s iterate in insertion order, so each mapping is an
insertion-ordered association structure; for classification only the key sets
matter, for `find_parent_dataset` the dataset nodes' subtree membership
matters.  `SpeasyIndex.__contains__` (subtree membership, in
`speasy/core/inventory/indexes.py`, not under src/) is modelled from the
spec §3: "membership test `uid` is a descendant" — each dataset node carries
the set of uids of its descendants. -/

/-- A dataset node of the flat inventory: its xml id and the uids of the
products contained in its subtree (`product_id in dataset`). -/
structure DatasetNode where
  xmlid : String
  members : List String
deriving DecidableEq, Repr

/-- The flat per-type inventory mappings of one provider, in insertion order. -/
structure FlatInventory where
  datasets : List DatasetNode
  parameters : List String
  components : List String
  timetables : List String
  catalogs : List String
deriving DecidableEq, Repr

/-- `ImpexProductType` (impex/__init__.py lines 35-43). -/
inductive ImpexProductType where
  | UNKNOWN
  | DATASET
  | PARAMETER
  | COMPONENT
  | TIMETABLE
  | CATALOG
deriving DecidableEq, Repr

/-- `ImpexProvider.product_type` (impex/__init__.py lines 340-374):
successive membership tests against the flat mappings, in the fixed order
datasets, parameters, components, timetables, catalogs, else `UNKNOWN`. -/
def product_type (inv : FlatInventory) (product_id : String) : ImpexProductType :=
  if (inv.datasets.map DatasetNode.xmlid).contains product_id then .DATASET
  else if inv.parameters.contains product_id then .PARAMETER
  else if inv.components.contains product_id then .COMPONENT
  else if inv.timetables.contains product_id then .TIMETABLE
  else if inv.catalogs.contains product_id then .CATALOG
  else .UNKNOWN

/-- `ImpexProvider.find_parent_dataset` (impex/__init__.py lines 376-384):
a dataset is its own parent; for a parameter or component, scan the flat
dataset mapping in order and return the xml id of the first dataset whose
subtree contains the product; otherwise (and when no dataset matches) the
Python function falls through and returns `None`. -/
def find_parent_dataset (inv : FlatInventory) (product_id : String) : Option String :=
  match product_type inv product_id with
  | .DATASET => some product_id
  | .COMPONENT => (inv.datasets.find? fun d => d.members.contains product_id).map DatasetNode.xmlid
  | .PARAMETER => (inv.datasets.find? fun d => d.members.contains product_id).map DatasetNode.xmlid
  | _ => none

/-! ## `get_data` dispatch -/

/-- The branch `ImpexProvider.get_data` (impex/__init__.py lines 150-171)
resolves to for a product. -/
inductive GetDataOutcome where
  | dataset (id : String) (start stop : Int)
  | parameter (id : String) (start stop : Int)
  | userParameter (id : String) (start stop : Int)
  | timetable (id : String)
  | userTimetable (id : String)
  | catalog (id : String)
  | userCatalog (id : String)
deriving DecidableEq, Repr

/-- `ImpexProvider.get_data` (impex/__init__.py lines 150-171).  `start_time`
and `stop_time` default to `None`; the dataset and parameter branches are
guarded by the Python truthiness test `start_time and stop_time` (a missing
value is falsy), the timetable and catalog branches never look at the times,
and a request matching no branch raises `ValueError(f"Unknown product:
{product}")`.  `userProducts` models `is_user_parameter` / `is_user_timetable`
/ `is_user_catalog` (the products whose node `is_private` holds). -/
def get_data (inv : FlatInventory) (userProducts : List String) (product : String)
    (start_time stop_time : Option Int) : Except String GetDataOutcome :=
  if product_type inv product = .DATASET && start_time.isSome && stop_time.isSome then
    .ok (.dataset product (start_time.getD 0) (stop_time.getD 0))
  else if product_type inv product = .PARAMETER && start_time.isSome && stop_time.isSome then
    if userProducts.contains product then
      .ok (.userParameter product (start_time.getD 0) (stop_time.getD 0))
    else
      .ok (.parameter product (start_time.getD 0) (stop_time.getD 0))
  else if product_type inv product = .CATALOG then
    if userProducts.contains product then .ok (.userCatalog product)
    else .ok (.catalog product)
  else if product_type inv product = .TIMETABLE then
    if userProducts.contains product then .ok (.userTimetable product)
    else .ok (.timetable product)
  else
    .error ("Unknown product: " ++ product)

/-! ## `get_dataset` -/

/-- One child parameter of a dataset, as listed by `list_parameters`:
its uid and its display name (used as the `variables` key). -/
structure ParamInfo where
  uid : String
  name : String
deriving DecidableEq, Repr

/-- The inventory data `get_dataset` reads about a dataset: its xml id and
display name, its declared definition range `[start_date, stop_date)`
(`dataset_range`), and its child parameters in inventory order. -/
structure DatasetDef where
  xmlid : String
  name : String
  start_date : Int
  stop_date : Int
  params : List ParamInfo
deriving DecidableEq, Repr

/-- One `get_parameter(p, start, stop)` call issued by `get_dataset`. -/
structure ParamFetch where
  uid : String
  start : Int
  stop : Int
deriving DecidableEq, Repr

/-- A Python `dict` insertion: an existing key's value is replaced in place,
a new key is appended. -/
def dictInsert (l : List (String × ParamFetch)) (k : String) (v : ParamFetch) :
    List (String × ParamFetch) :=
  if l.any (fun p => p.1 == k) then
    l.map fun p => if p.1 == k then (k, v) else p
  else
    l ++ [(k, v)]

/-- The Python dict comprehension `{p.name: ... for p in parameters}`:
entries inserted in iteration order, a duplicate key overwriting the
earlier value at its original position. -/
def dictOfList (ps : List (String × ParamFetch)) : List (String × ParamFetch) :=
  ps.foldl (fun acc p => dictInsert acc p.1 p.2) []

/-- The returned `Dataset`: its display name and the `variables` mapping,
keyed by parameter display name; each value records the `get_parameter`
call that produced it. -/
structure DatasetResult where
  name : String
  vars : List (String × ParamFetch)
deriving DecidableEq, Repr

/-- What one `get_dataset` call does: its return value, the warnings it
emits, and the `get_parameter` calls it issues. -/
structure GetDatasetTrace where
  result : Option DatasetResult
  warnings : List String
  fetches : List ParamFetch
deriving DecidableEq, Repr

/-- `ImpexProvider.get_dataset` (impex/__init__.py lines 191-205): when the
dataset's definition range does not intersect the requested range it logs
one warning (`"You are requesting {dataset_id} outside of its definition
range {ds_range}"`) and returns `None` without touching the child
parameters; otherwise it builds a `Dataset` whose `variables` dict maps each
child parameter's display name to an independent
`get_parameter(p, start, stop)` call over the same range. -/
def get_dataset (ds : DatasetDef) (start stop : Int) : GetDatasetTrace :=
  if !(rangesIntersect ds.start_date ds.stop_date start stop) then
    { result := none,
      warnings := [("You are requesting " ++ ds.xmlid ++ " ") ++
        ("outside of its definition range" ++
          (" [" ++ toString ds.start_date ++ ", " ++ toString ds.stop_date ++ ")"))],
      fetches := [] }
  else
    { result := some
        { name := ds.name,
          vars := dictOfList (ds.params.map fun p => (p.name, ⟨p.uid, start, stop⟩)) },
      warnings := [],
      fetches := ds.params.map fun p => ⟨p.uid, start, stop⟩ }

/-! ## Variable model, time-wise merge and column-wise concatenation

`SpeasyVariable` (products/variable.py, not under src/) is modelled from the
spec §3: an axes list whose head is the time axis, a values block with one
row per time sample, a metadata mapping, a name and column labels.  Axis
samples and values are integers (the numeric payload is opaque to the
engine). -/

structure SpeasyVariable where
  axes : List (List Int)
  values : List (List Int)
  meta : List (String × String)
  name : String
  columns : List String
deriving DecidableEq, Repr

/-- Modelled from the spec: `merge` (products/variable.py, not under src/),
§4.4 — `merge(None, b) = b`, `merge(a, None) = a`; otherwise `b`'s rows are
concatenated after `a`'s along the time dimension, time-dependent axes in
lockstep, non-time axes and metadata taken from `a`. -/
def merge (a b : Option SpeasyVariable) : Option SpeasyVariable :=
  match a, b with
  | none, b => b
  | some a, none => some a
  | some a, some b =>
    some { axes := (a.axes.headD [] ++ b.axes.headD []) :: a.axes.drop 1,
           values := a.values ++ b.values,
           meta := a.meta, name := a.name, columns := a.columns }

/-- The per-chunk fold of `dl_parameter` (impex/__init__.py lines 289-296):
`var = None`, then `var = merge([var, chunk_result])` for each chunk result
in order. -/
def foldChunks (results : List (Option SpeasyVariable)) : Option SpeasyVariable :=
  results.foldl merge none

/-- `np.concatenate((a, b), axis=1)` on two blocks with one row per time
sample: rows are extended pairwise. -/
def concatCols (a b : List (List Int)) : List (List Int) :=
  List.zipWith (· ++ ·) a b

/-- `meta['FIELDNAM'] = nm` on an association-list metadata mapping. -/
def setFieldnam (meta : List (String × String)) (nm : String) : List (String × String) :=
  meta.map fun kv => if kv.1 == "FIELDNAM" then (kv.1, nm) else kv

/-- The running state of the loop in `_concatenate_variables`
(impex/__init__.py lines 425-437): the accumulated `axes`, `values`, the
captured `meta`, the `columns` list, and the loop variable `name`. -/
structure ConcatState where
  axes : List (List Int)
  values : List (List Int)
  meta : List (String × String)
  columns : List String
  lastName : String
deriving DecidableEq, Repr

/-- One iteration of the `for name, variable in variables.items()` loop:
while `axes` is still empty the variable's values, axes and meta are
captured (`if not axes:`), afterwards values are concatenated column-wise
and the variable's non-time axes (`variable.axes[1:]`) appended; `name` is
appended to `columns` either way. -/
def concatStep (st : ConcatState) (p : String × SpeasyVariable) : ConcatState :=
  if st.axes.isEmpty then
    { axes := p.2.axes, values := p.2.values, meta := p.2.meta,
      columns := st.columns ++ [p.1], lastName := p.1 }
  else
    { axes := st.axes ++ p.2.axes.drop 1,
      values := concatCols st.values p.2.values,
      meta := st.meta,
      columns := st.columns ++ [p.1], lastName := p.1 }

/-- `ImpexProvider._concatenate_variables` (impex/__init__.py lines 416-445):
empty mapping returns `None`; a single entry returns a copy renamed to
`product_id`; otherwise the loop above runs over the entries in mapping
order, then `meta['FIELDNAM']`, when present, is set to the loop's final
`name` (the last key), and a new variable is assembled from the accumulated
axes, values, meta and columns. -/
def _concatenate_variables :
    List (String × SpeasyVariable) → String → Option SpeasyVariable
  | [], _ => none
  | [(_, v)], product_id => some { v with name := product_id }
  | vs, product_id =>
    let st := vs.foldl concatStep ⟨[], [], [], [], ""⟩
    let meta := if st.meta.any (fun kv => kv.1 == "FIELDNAM") then
        setFieldnam st.meta st.lastName
      else st.meta
    some { axes := st.axes, values := st.values, meta := meta,
           name := product_id, columns := st.columns }

/-- Column-wise concatenation as the spec words it (§4.4, written from the
claim for comparison with `_concatenate_variables`): with all inputs sharing
time-axis length `T`, row `i` of the result is the concatenation of row `i`
of every input, in mapping order. -/
def specColConcat (ms : List (List (List Int))) (T : Nat) : List (List Int) :=
  (List.range T).map fun i => (ms.map fun m => m.getD i []).flatten

/-- A small concrete inventory used by witnesses: two datasets (both
containing parameter `p1`), a parameter, a component, a timetable and a
catalog. -/
def invEx : FlatInventory :=
  { datasets := [{ xmlid := "ds1", members := ["p1", "c1"] },
                 { xmlid := "ds2", members := ["p1"] }],
    parameters := ["p1"],
    components := ["c1"],
    timetables := ["tt1"],
    catalogs := ["cat1"] }

/-- A small concrete dataset description used by witnesses: definition range
`[0, 100)` and three child parameters with distinct display names. -/
def dsEx : DatasetDef :=
  { xmlid := "dsX", name := "DS X", start_date := 0, stop_date := 100,
    params := [{ uid := "u1", name := "a" }, { uid := "u2", name := "b" },
               { uid := "u3", name := "c" }] }

/-- A dataset with two child parameters sharing the display name `x`
(display-name collisions are admitted by the inventory builder, spec §4.1). -/
def dsDup : DatasetDef :=
  { xmlid := "dsD", name := "DS D", start_date := 0, stop_date := 100,
    params := [{ uid := "u1", name := "x" }, { uid := "u2", name := "x" }] }

/-- A concrete two-sample variable whose metadata carries `FIELDNAM`. -/
def vA : SpeasyVariable :=
  { axes := [[0, 1]], values := [[10], [20]], meta := [("FIELDNAM", "a")],
    name := "a", columns := ["a"] }

/-- A second concrete two-sample variable, same time-axis shape as `vA`. -/
def vB : SpeasyVariable :=
  { axes := [[0, 1]], values := [[30], [40]], meta := [("FIELDNAM", "b")],
    name := "b", columns := ["b"] }

/-! ## Chunk generation: closed form -/

/-- Ceiling-division step: removing one full window of size `d` from a
non-empty remainder decreases the window count by exactly one. -/
lemma ceil_div_step (x d : Nat) (hd : 0 < d) (hx : 0 < x) :
    (x + d - 1) / d = (x - d + d - 1) / d + 1 := by
  have hL : x + d - 1 = (x - 1) + d := by omega
  rw [hL, Nat.add_div_right _ hd]
  rcases le_or_lt x d with h | h
  · have h1 : x - d + d - 1 = d - 1 := by omega
    rw [h1, Nat.div_eq_of_lt (by omega), Nat.div_eq_of_lt (by omega)]
  · have h1 : x - d + d - 1 = (x - d - 1) + d := by omega
    have h2 : x - 1 = (x - d - 1) + d := by omega
    rw [h1, h2]

lemma nChunks_eq_zero (curr stop dt : Int) (hdt : 0 < dt) (h : ¬ curr < stop) :
    nChunks curr stop dt = 0 := by
  unfold nChunks
  have hz : (stop - curr).toNat = 0 := by omega
  rw [hz]
  exact Nat.div_eq_of_lt (by omega)

lemma nChunks_succ (curr stop dt : Int) (hdt : 0 < dt) (h : curr < stop) :
    nChunks curr stop dt = nChunks (curr + dt) stop dt + 1 := by
  unfold nChunks
  have hx : 0 < (stop - curr).toNat := by omega
  have hd : 0 < dt.toNat := by omega
  have hxd : (stop - (curr + dt)).toNat = (stop - curr).toNat - dt.toNat := by omega
  rw [hxd]
  exact ceil_div_step _ _ hd hx

/-- The loop of `dl_parameter`, in closed form: with positive chunk size and
enough fuel, iteration `i` emits the window
`[curr + i*dt, min (curr + (i+1)*dt) stop)`. -/
lemma chunksFuel_closed (fuel : Nat) : ∀ curr stop dt : Int, 0 < dt →
    (stop - curr).toNat ≤ fuel →
    chunksFuel fuel curr stop dt =
      (List.range (nChunks curr stop dt)).map
        (fun i : Nat => (curr + (i : Int) * dt, min (curr + ((i : Int) + 1) * dt) stop)) := by
  induction fuel with
  | zero =>
    intro curr stop dt hdt hf
    rw [nChunks_eq_zero curr stop dt hdt (by omega)]
    rfl
  | succ n ih =>
    intro curr stop dt hdt hf
    by_cases h : curr < stop
    · rw [chunksFuel, if_pos h, ih (curr + dt) stop dt hdt (by omega),
        nChunks_succ curr stop dt hdt h, List.range_succ_eq_map, List.map_cons,
        List.map_map]
      congr 1
      · norm_num
      · apply List.map_congr_left
        intro i _
        simp only [Function.comp_apply, Nat.succ_eq_add_one]
        rw [Prod.mk.injEq]
        push_cast
        constructor
        · ring
        · congr 1
          ring
    · rw [chunksFuel, if_neg h, nChunks_eq_zero curr stop dt hdt h]
      rfl

/-- `chunks` in closed form. -/
lemma chunks_closed (start stop dt : Int) (hdt : 0 < dt) :
    chunks start stop dt =
      (List.range (nChunks start stop dt)).map
        (fun i : Nat => (start + (i : Int) * dt, min (start + ((i : Int) + 1) * dt) stop)) :=
  chunksFuel_closed _ start stop dt hdt le_rfl

/-- Every index below the chunk count leaves part of the requested range to
its right: `i*dt < stop - start`. -/
lemma lt_nChunks_mul (start stop dt : Int) (i : Nat) (hdt : 0 < dt)
    (hlt : start < stop) (hi : i < nChunks start stop dt) :
    (i : Int) * dt < stop - start := by
  unfold nChunks at hi
  set x := (stop - start).toNat with hxdef
  set d := dt.toNat with hddef
  have hd : 0 < d := by omega
  have hx : 0 < x := by omega
  have h1 : (i + 1) * d ≤ ((x + d - 1) / d) * d := Nat.mul_le_mul_right d hi
  have h2 : ((x + d - 1) / d) * d ≤ x + d - 1 := Nat.div_mul_le_self _ _
  have hsm : (i + 1) * d = i * d + d := by ring
  have h4 : i * d < x := by omega
  have h5 : ((i * d : Nat) : Int) < ((x : Nat) : Int) := by exact_mod_cast h4
  have h6 : ((x : Nat) : Int) = stop - start := by omega
  have h7 : ((d : Nat) : Int) = dt := by omega
  calc (i : Int) * dt = ((i * d : Nat) : Int) := by rw [← h7]; push_cast; ring
    _ < stop - start := by rw [← h6]; exact h5

/-- The chunk count covers the whole range: `stop - start ≤ nChunks * dt`. -/
lemma nChunks_mul_ge (start stop dt : Int) (hdt : 0 < dt) (hlt : start < stop) :
    stop - start ≤ (nChunks start stop dt : Int) * dt := by
  unfold nChunks
  set x := (stop - start).toNat with hxdef
  set d := dt.toNat with hddef
  have hd : 0 < d := by omega
  set n := (x + d - 1) / d with hndef
  have h1 : x + d - 1 < (n + 1) * d :=
    (Nat.div_lt_iff_lt_mul hd).mp (Nat.lt_succ_self n)
  have hsm : (n + 1) * d = n * d + d := by ring
  have h2 : x ≤ n * d := by omega
  have h3 : ((x : Nat) : Int) ≤ ((n * d : Nat) : Int) := by exact_mod_cast h2
  have h6 : ((x : Nat) : Int) = stop - start := by omega
  have h7 : ((d : Nat) : Int) = dt := by omega
  calc stop - start = ((x : Nat) : Int) := h6.symm
    _ ≤ ((n * d : Nat) : Int) := h3
    _ = (n : Int) * dt := by rw [← h7]; push_cast; ring

/-- C1: when `stop_time - start_time` strictly exceeds the maximum chunk
duration `dt`, `dl_parameter` issues one fetch per chunk, the chunks being
the consecutive windows `[start + i*dt, min (start + (i+1)*dt, stop))`:
there are exactly `ceil((stop-start)/dt)` of them (`nChunks`), each is
non-empty, they are contiguous (hence non-overlapping), their union is
exactly `[start, stop)` (the first starts at `start`, each non-last ends
unclipped at `start + (i+1)*dt`, the last ends exactly at `stop`); and when
`stop_time - start_time ≤ dt`, exactly one fetch covering the whole
`[start, stop)` is issued. -/
theorem dl_parameter_chunk_windows (start stop dt : Int) (rp uc : Bool)
    (username password : String) (l : List FetchCall) (hdt : 0 < dt)
    (h : dl_parameter start stop dt rp uc username password = .ok l) :
    (dt < stop - start →
      l.length = nChunks start stop dt ∧
      (∀ i (hi : i < l.length),
        (l.get ⟨i, hi⟩).start = start + (i : Int) * dt ∧
        (l.get ⟨i, hi⟩).stop = min (start + ((i : Int) + 1) * dt) stop) ∧
      (∀ i (hi : i < l.length), (l.get ⟨i, hi⟩).start < (l.get ⟨i, hi⟩).stop) ∧
      (∀ i (hi : i < l.length) (hj : i + 1 < l.length),
        (l.get ⟨i + 1, hj⟩).start = (l.get ⟨i, hi⟩).stop) ∧
      (∀ i (hi : i < l.length), i + 1 < l.length →
        (l.get ⟨i, hi⟩).stop = start + ((i : Int) + 1) * dt) ∧
      (∀ h0 : 0 < l.length, (l.get ⟨0, h0⟩).start = start) ∧
      (∀ hlast : l.length - 1 < l.length, (l.get ⟨l.length - 1, hlast⟩).stop = stop)) ∧
    (stop - start ≤ dt →
      l.length = 1 ∧
      ∀ h0 : 0 < l.length, (l.get ⟨0, h0⟩).start = start ∧ (l.get ⟨0, h0⟩).stop = stop) := by
  unfold dl_parameter at h
  by_cases hcred : (rp && !(credential_are_valid username password)) = true
  · rw [if_pos hcred] at h
    cases h
  rw [if_neg hcred] at h
  constructor
  · intro hbig
    rw [if_pos hbig, chunks_closed start stop dt hdt, List.map_map] at h
    injection h with h
    subst h
    have hlt : start < stop := by omega
    refine ⟨by simp, ?_, ?_, ?_, ?_, ?_, ?_⟩
    · intro i hi
      simp [List.get_eq_getElem]
    · intro i hi
      simp only [List.length_map, List.length_range] at hi
      simp only [List.get_eq_getElem, List.getElem_map, List.getElem_range,
        Function.comp_apply]
      have h1 : (i : Int) * dt < stop - start := lt_nChunks_mul start stop dt i hdt hlt hi
      have h2 : start + (i : Int) * dt < start + ((i : Int) + 1) * dt := by nlinarith
      exact lt_min h2 (by omega)
    · intro i hi hj
      simp only [List.length_map, List.length_range] at hi hj
      simp only [List.get_eq_getElem, List.getElem_map, List.getElem_range,
        Function.comp_apply]
      have h1 : ((i : Int) + 1) * dt < stop - start :=
        lt_nChunks_mul start stop dt (i + 1) hdt hlt hj |>.trans_le' (by push_cast; ring_nf; exact le_refl _)
      have hle : start + ((i : Int) + 1) * dt ≤ stop := by omega
      rw [min_eq_left hle]
      push_cast
      ring
    · intro i hi hj
      simp only [List.length_map, List.length_range] at hi hj
      simp only [List.get_eq_getElem, List.getElem_map, List.getElem_range,
        Function.comp_apply]
      have h1 : ((i : Int) + 1) * dt < stop - start :=
        lt_nChunks_mul start stop dt (i + 1) hdt hlt hj |>.trans_le' (by push_cast; ring_nf; exact le_refl _)
      have hle : start + ((i : Int) + 1) * dt ≤ stop := by omega
      rw [min_eq_left hle]
    · intro h0
      simp only [List.get_eq_getElem, List.getElem_map, List.getElem_range,
        Function.comp_apply]
      norm_num
    · intro hlast
      simp only [List.length_map, List.length_range] at hlast ⊢
      simp only [List.get_eq_getElem, List.getElem_map, List.getElem_range,
        Function.comp_apply]
      have hpos : 0 < nChunks start stop dt := by omega
      have hcover := nChunks_mul_ge start stop dt hdt hlt
      have hcast : ((nChunks start stop dt - 1 : Nat) : Int) + 1 =
          (nChunks start stop dt : Int) := by omega
      rw [hcast]
      exact min_eq_right (by linarith)
  · intro hsmall
    rw [if_neg (show ¬ dt < stop - start by omega)] at h
    injection h with h
    subst h
    exact ⟨rfl, fun h0 => ⟨rfl, rfl⟩⟩

/-- Witness for `dl_parameter_chunk_windows`: a 25-unit request with 10-unit
chunks is split into the 3 windows `[0,10)`, `[10,20)`, `[20,25)`. -/
theorem dl_parameter_chunk_windows_witness :
    (0 : Int) < 10 ∧
    dl_parameter 0 25 10 false false "u" "p" =
      .ok [⟨0, 10, false⟩, ⟨10, 20, false⟩, ⟨20, 25, false⟩] ∧
    ([⟨0, 10, false⟩, ⟨10, 20, false⟩, ⟨20, 25, false⟩] : List FetchCall).length =
      nChunks 0 25 10 :=
  ⟨by decide, by decide,
    ((dl_parameter_chunk_windows 0 25 10 false false "u" "p"
      [⟨0, 10, false⟩, ⟨10, 20, false⟩, ⟨20, 25, false⟩]
      (by decide) (by decide)).1 (by decide)).1⟩


/-! ## Credentials and restricted periods (C2, C3) -/

/-- C2: a restricted-period `dl_parameter` call with invalid credentials
(empty username or empty password) raises `MissingCredentials` immediately:
the result is the error, produced before the chunk loop, so no chunk fetch
is issued and no partial result exists. -/
theorem dl_parameter_missing_credentials (start stop dt : Int) (uc : Bool)
    (username password : String) (h : username = "" ∨ password = "") :
    dl_parameter start stop dt true uc username password =
      .error .missingCredentials := by
  have hcred : credential_are_valid username password = false := by
    unfold credential_are_valid
    rcases h with h | h <;> simp [h]
  unfold dl_parameter
  simp [hcred]

/-- Witness for `dl_parameter_missing_credentials`: empty username. -/
theorem dl_parameter_missing_credentials_witness :
    dl_parameter 0 25 10 true false "" "p" = .error .missingCredentials :=
  dl_parameter_missing_credentials 0 25 10 false "" "p" (Or.inl rfl)

/-- C3 (evidence of the divergence): a time-restricted request spanning more
than one chunk, with valid credentials.  `has_time_restriction` holds and
`get_parameter` does force `disable_proxy=True` and `restricted_period=True`
for the call, but the three chunk fetches are issued with
`use_credentials = false`: `dl_parameter` never forwards `use_credentials`
to `dl_parameter_chunk` in its chunked branch, so authenticated-credential
mode does not reach any per-chunk fetch. -/
theorem get_parameter_restricted_chunked_no_credentials :
    has_time_restriction (some 5) 100 0 25 = true ∧
    get_parameter (has_time_restriction (some 5) 100 0 25) 0 25 10 "user" "pass" =
      { disable_proxy := true, restricted_period := true,
        result := .ok [⟨0, 10, false⟩, ⟨10, 20, false⟩, ⟨20, 25, false⟩] } := by
  decide

/-! ## Classification and parent-dataset resolution (C4, C5) -/

/-- C4: `product_type` classifies by successive membership tests against the
flat mappings in the fixed precedence datasets, parameters, components,
timetables, catalogs, else `UNKNOWN`; any uid present in the dataset flat
mapping is classified `DATASET`, and the classification of a fixed uid is
unique (mutually exclusive across the five kinds and `UNKNOWN`). -/
theorem product_type_precedence (inv : FlatInventory) (uid : String) :
    ((inv.datasets.map DatasetNode.xmlid).contains uid = true →
      product_type inv uid = .DATASET) ∧
    ((inv.datasets.map DatasetNode.xmlid).contains uid = false →
      inv.parameters.contains uid = true →
      product_type inv uid = .PARAMETER) ∧
    ((inv.datasets.map DatasetNode.xmlid).contains uid = false →
      inv.parameters.contains uid = false →
      inv.components.contains uid = true →
      product_type inv uid = .COMPONENT) ∧
    ((inv.datasets.map DatasetNode.xmlid).contains uid = false →
      inv.parameters.contains uid = false →
      inv.components.contains uid = false →
      inv.timetables.contains uid = true →
      product_type inv uid = .TIMETABLE) ∧
    ((inv.datasets.map DatasetNode.xmlid).contains uid = false →
      inv.parameters.contains uid = false →
      inv.components.contains uid = false →
      inv.timetables.contains uid = false →
      inv.catalogs.contains uid = true →
      product_type inv uid = .CATALOG) ∧
    ((inv.datasets.map DatasetNode.xmlid).contains uid = false →
      inv.parameters.contains uid = false →
      inv.components.contains uid = false →
      inv.timetables.contains uid = false →
      inv.catalogs.contains uid = false →
      product_type inv uid = .UNKNOWN) ∧
    (∀ k k' : ImpexProductType,
      product_type inv uid = k → product_type inv uid = k' → k = k') := by
  refine ⟨?_, ?_, ?_, ?_, ?_, ?_, fun k k' h h' => by rw [← h, ← h']⟩
  · intro h1
    unfold product_type
    rw [h1]
    simp
  · intro h1 h2
    unfold product_type
    rw [h1, h2]
    simp
  · intro h1 h2 h3
    unfold product_type
    rw [h1, h2, h3]
    simp
  · intro h1 h2 h3 h4
    unfold product_type
    rw [h1, h2, h3, h4]
    simp
  · intro h1 h2 h3 h4 h5
    unfold product_type
    rw [h1, h2, h3, h4, h5]
    simp
  · intro h1 h2 h3 h4 h5
    unfold product_type
    rw [h1, h2, h3, h4, h5]
    simp

/-- Witness for `product_type_precedence`: in the concrete inventory,
`ds1` is in the dataset mapping and is classified `DATASET`. -/
theorem product_type_precedence_witness :
    product_type invEx "ds1" = .DATASET :=
  (product_type_precedence invEx "ds1").1 (by decide)

/-- `find?` over a decomposed list whose prefix has no match returns the
first matching element. -/
lemma find?_first_match (p : DatasetNode → Bool) (pre : List DatasetNode)
    (d : DatasetNode) (post : List DatasetNode)
    (hpre : ∀ d' ∈ pre, p d' = false) (hd : p d = true) :
    (pre ++ d :: post).find? p = some d := by
  induction pre with
  | nil => exact List.find?_cons_of_pos _ hd
  | cons a pre ih =>
    rw [List.cons_append, List.find?_cons_of_neg _ (by simp [hpre a (by simp)])]
    exact ih fun d' h => hpre d' (by simp [h])

/-- C5: `find_parent_dataset` returns the uid itself whenever the uid names
a dataset; for a parameter or component it scans the flat dataset mapping in
insertion order and returns the xml id of the first dataset whose subtree
contains the uid (first match wins, without error). -/
theorem find_parent_dataset_first_match (inv : FlatInventory) (uid : String) :
    (product_type inv uid = .DATASET → find_parent_dataset inv uid = some uid) ∧
    ((product_type inv uid = .PARAMETER ∨ product_type inv uid = .COMPONENT) →
      ∀ pre d post, inv.datasets = pre ++ d :: post →
        (∀ d' ∈ pre, d'.members.contains uid = false) →
        d.members.contains uid = true →
        find_parent_dataset inv uid = some d.xmlid) := by
  constructor
  · intro h
    unfold find_parent_dataset
    rw [h]
  · intro ht pre d post hsplit hpre hd
    have hfind : (inv.datasets.find? fun d' => d'.members.contains uid) = some d := by
      rw [hsplit]
      exact find?_first_match _ pre d post hpre hd
    unfold find_parent_dataset
    rcases ht with h | h <;> rw [h] <;> rw [hfind] <;> rfl

/-- Witness for `find_parent_dataset_first_match`: `p1` is contained in both
datasets of the concrete inventory and the first one, `ds1`, wins. -/
theorem find_parent_dataset_first_match_witness :
    find_parent_dataset invEx "p1" = some "ds1" :=
  (find_parent_dataset_first_match invEx "p1").2 (Or.inl (by decide))
    [] { xmlid := "ds1", members := ["p1", "c1"] }
    [{ xmlid := "ds2", members := ["p1"] }]
    (by decide) (by simp) (by decide)

/-! ## Out-of-range dataset requests (C6) -/

/-- C6: a dataset request whose range does not intersect the dataset's
declared definition range returns `None` without resolving child parameters
or issuing any fetch, and emits exactly one warning containing
"outside of its definition range". -/
theorem get_dataset_out_of_range (ds : DatasetDef) (start stop : Int)
    (h : rangesIntersect ds.start_date ds.stop_date start stop = false) :
    (get_dataset ds start stop).result = none ∧
    (get_dataset ds start stop).fetches = [] ∧
    ∃ w pre post, (get_dataset ds start stop).warnings = [w] ∧
      w = pre ++ ("outside of its definition range" ++ post) := by
  have hform : get_dataset ds start stop =
      { result := none,
        warnings := [("You are requesting " ++ ds.xmlid ++ " ") ++
          ("outside of its definition range" ++
            (" [" ++ toString ds.start_date ++ ", " ++ toString ds.stop_date ++ ")"))],
        fetches := [] } := by
    unfold get_dataset
    rw [h]
    rfl
  rw [hform]
  exact ⟨rfl, rfl, _, _, _, rfl, rfl⟩

/-- Witness for `get_dataset_out_of_range`: requesting `[200, 300)` from a
dataset defined on `[0, 100)`. -/
theorem get_dataset_out_of_range_witness :
    (get_dataset dsEx 200 300).result = none ∧ (get_dataset dsEx 200 300).fetches = [] :=
  ⟨(get_dataset_out_of_range dsEx 200 300 (by decide)).1,
   (get_dataset_out_of_range dsEx 200 300 (by decide)).2.1⟩

/-! ## Merge identity laws and the chunk fold (C7) -/

/-- C7: the chunk-fold merge satisfies the identity laws
`merge(None, b) = b`, `merge(a, None) = a`, `merge(None, None) = None`;
consequently a chunk whose fetch or decode yields `None` contributes nothing
to the per-chunk fold of `dl_parameter` and does not abort the remaining
chunks. -/
theorem merge_identity_laws :
    (∀ b, merge none b = b) ∧
    (∀ a, merge a none = a) ∧
    merge none none = none ∧
    (∀ l₁ l₂, foldChunks (l₁ ++ none :: l₂) = foldChunks (l₁ ++ l₂)) := by
  have hr : ∀ a, merge a none = a := fun a => by cases a <;> rfl
  refine ⟨fun b => by cases b <;> rfl, hr, rfl, ?_⟩
  intro l₁ l₂
  unfold foldChunks
  rw [List.foldl_append, List.foldl_append, List.foldl_cons, hr]

/-! ## `get_data` fallthrough on missing times (C10) -/

/-- C10: a product id known as a dataset or parameter but requested with a
missing (`None`/falsy) start or stop time falls through every dispatch
branch of `get_data` and yields the same `ValueError("Unknown product:
...")` raised for ids absent from all flat mappings; timetable and catalog
dispatch ignores the times entirely. -/
theorem get_data_falsy_times (inv : FlatInventory) (ups : List String)
    (product : String) (s t : Option Int) :
    ((product_type inv product = .DATASET ∨ product_type inv product = .PARAMETER) →
      (s = none ∨ t = none) →
      get_data inv ups product s t = .error ("Unknown product: " ++ product)) ∧
    (product_type inv product = .UNKNOWN →
      get_data inv ups product s t = .error ("Unknown product: " ++ product)) ∧
    ((product_type inv product = .TIMETABLE ∨ product_type inv product = .CATALOG) →
      get_data inv ups product s t = get_data inv ups product none none) := by
  refine ⟨?_, ?_, ?_⟩
  · rintro (h | h) (h2 | h2) <;> subst h2 <;> unfold get_data <;> simp [h]
  · intro h
    unfold get_data
    simp [h]
  · rintro (h | h) <;> unfold get_data <;> simp [h]

/-- Witness for `get_data_falsy_times`: `ds1` is a known dataset of the
concrete inventory, yet with a missing start time the call raises
"Unknown product: ds1". -/
theorem get_data_falsy_times_witness :
    get_data invEx [] "ds1" none (some 5) = .error ("Unknown product: " ++ "ds1") :=
  (get_data_falsy_times invEx [] "ds1" none (some 5)).1 (Or.inl (by decide)) (Or.inl rfl)


/-! ## `get_dataset` inside the definition range (C9) -/

/-- Folding fresh keys into a Python dict appends them in order. -/
lemma dict_foldl_fresh (ps : List (String × ParamFetch)) :
    ∀ acc : List (String × ParamFetch),
    (∀ k ∈ ps.map Prod.fst, acc.any (fun p => p.1 == k) = false) →
    (ps.map Prod.fst).Nodup →
    ps.foldl (fun acc p => dictInsert acc p.1 p.2) acc = acc ++ ps := by
  induction ps with
  | nil =>
    intro acc _ _
    simp
  | cons q ps ih =>
    intro acc hfresh hnd
    simp only [List.map_cons, List.nodup_cons] at hnd
    have hq : dictInsert acc q.1 q.2 = acc ++ [q] := by
      unfold dictInsert
      rw [hfresh q.1 (by simp)]
      simp
    simp only [List.foldl_cons, hq]
    rw [ih (acc ++ [q]) ?fresh hnd.2]
    · simp
    case fresh =>
      intro k hk
      have h1 : acc.any (fun p => p.1 == k) = false := hfresh k (by simp [hk])
      have h2 : ¬ q.1 = k := fun hc => hnd.1 (hc ▸ hk)
      simp [List.any_append, h1, h2]

/-- A dict built from pairwise-distinct keys keeps every entry in order. -/
lemma dictOfList_nodup (ps : List (String × ParamFetch))
    (hnd : (ps.map Prod.fst).Nodup) : dictOfList ps = ps := by
  have h := dict_foldl_fresh ps [] (by simp) hnd
  simpa [dictOfList] using h

/-- C9 (counterexample to the claim as stated): a dataset with two child
parameters that share the display name `x`, requested inside its definition
range, yields a `variables` mapping with a single entry — the comprehension
`{p.name: ... for p in parameters}` collapses duplicate display names — so
the mapping does not have one entry per child parameter. -/
theorem get_dataset_duplicate_names_counterexample :
    ((get_dataset dsDup 0 10).result.map fun r => r.vars.length) = some 1 ∧
    dsDup.params.length = 2 := by
  decide

/-- C9 (amended): for a dataset request inside the definition range whose
child parameters carry pairwise-distinct display names, the result is a
mapping with one entry per child parameter, keyed by display name, each
entry recording an independent `get_parameter` call over the same
`[start, stop)` range (duplicate display names, excluded here, would
collapse into a single entry). -/
theorem get_dataset_in_range (ds : DatasetDef) (start stop : Int)
    (hr : rangesIntersect ds.start_date ds.stop_date start stop = true)
    (hnd : (ds.params.map ParamInfo.name).Nodup) :
    (get_dataset ds start stop).result =
      some { name := ds.name,
             vars := ds.params.map fun p => (p.name, ⟨p.uid, start, stop⟩) } ∧
    (get_dataset ds start stop).warnings = [] ∧
    (get_dataset ds start stop).fetches = ds.params.map (fun p => ⟨p.uid, start, stop⟩) ∧
    ((get_dataset ds start stop).result.map fun r => r.vars.length) =
      some ds.params.length := by
  have hform : get_dataset ds start stop =
      { result := some
          { name := ds.name,
            vars := dictOfList (ds.params.map fun p => (p.name, ⟨p.uid, start, stop⟩)) },
        warnings := [],
        fetches := ds.params.map fun p => ⟨p.uid, start, stop⟩ } := by
    unfold get_dataset
    rw [hr]
    rfl
  have hkeys : ((ds.params.map fun p => (p.name, (⟨p.uid, start, stop⟩ : ParamFetch))).map
      Prod.fst) = ds.params.map ParamInfo.name := by
    rw [List.map_map]
    rfl
  have hdict := dictOfList_nodup _ (by rw [hkeys]; exact hnd)
  rw [hform, hdict]
  refine ⟨rfl, rfl, rfl, ?_⟩
  simp

/-- Witness for `get_dataset_in_range`: the 3-parameter dataset yields a
3-entry mapping keyed by the display names. -/
theorem get_dataset_in_range_witness :
    ((get_dataset dsEx 0 10).result.map fun r => r.vars.length) = some dsEx.params.length :=
  (get_dataset_in_range dsEx 0 10 (by decide) (by decide)).2.2.2

/-! ## Column-wise concatenation (C8) -/

/-- Row `i` of `np.concatenate((a, b), axis=1)` is row `i` of `a` extended
by row `i` of `b`. -/
lemma concatCols_getD (a b : List (List Int)) (i : Nat)
    (ha : i < a.length) (hb : i < b.length) :
    (concatCols a b).getD i [] = a.getD i [] ++ b.getD i [] := by
  unfold concatCols
  simp [List.getD_eq_getElem?_getD, List.getElem?_zipWith,
    List.getElem?_eq_getElem ha, List.getElem?_eq_getElem hb]

/-- Folding column-concatenation over blocks that all share row count `T`
keeps `T` rows, and row `i` of the result is the concatenation of row `i`
of every block in order. -/
lemma foldl_concatCols_rows (ms : List (List (List Int))) :
    ∀ (m : List (List Int)) (T : Nat), m.length = T → (∀ x ∈ ms, x.length = T) →
    (ms.foldl concatCols m).length = T ∧
    ∀ i, i < T →
      (ms.foldl concatCols m).getD i [] =
        m.getD i [] ++ (ms.map fun x => x.getD i []).flatten := by
  induction ms with
  | nil =>
    intro m T hm _
    exact ⟨hm, fun i _ => by simp⟩
  | cons x ms ih =>
    intro m T hm hms
    have hx : x.length = T := hms x (by simp)
    have hcl : (concatCols m x).length = T := by
      simp [concatCols, List.length_zipWith, hm, hx]
    obtain ⟨hlen, hrow⟩ := ih (concatCols m x) T hcl (fun y hy => hms y (by simp [hy]))
    refine ⟨by simpa using hlen, ?_⟩
    intro i hi
    simp only [List.foldl_cons]
    rw [hrow i hi, concatCols_getD m x i (by omega) (by omega)]
    simp [List.append_assoc]

/-- Folded column-concatenation coincides with the spec-side column-wise
concatenation `specColConcat`. -/
lemma foldl_concatCols_eq_specColConcat (ms : List (List (List Int)))
    (m : List (List Int)) (T : Nat) (hm : m.length = T)
    (hms : ∀ x ∈ ms, x.length = T) :
    ms.foldl concatCols m = specColConcat (m :: ms) T := by
  obtain ⟨hlen, hrow⟩ := foldl_concatCols_rows ms m T hm hms
  apply List.ext_getElem
  · simp [specColConcat, hlen]
  · intro i h1 h2
    have hi : i < T := by omega
    have hrow' := hrow i hi
    rw [List.getD_eq_getElem?_getD, List.getElem?_eq_getElem h1] at hrow'
    simp only [Option.getD_some] at hrow'
    rw [hrow']
    simp [specColConcat]

/-- The loop step when the accumulated axes are already non-empty. -/
lemma concatStep_of_ne (st : ConcatState) (q : String × SpeasyVariable)
    (h : st.axes ≠ []) :
    concatStep st q =
      { axes := st.axes ++ q.2.axes.drop 1,
        values := concatCols st.values q.2.values,
        meta := st.meta,
        columns := st.columns ++ [q.1],
        lastName := q.1 } := by
  unfold concatStep
  rw [if_neg]
  simp [List.isEmpty_iff, h]

/-- Closed form of the `_concatenate_variables` loop once the first
variable's axes (non-empty) have been captured. -/
lemma concatStep_foldl (rest : List (String × SpeasyVariable)) :
    ∀ st : ConcatState, st.axes ≠ [] →
    rest.foldl concatStep st =
      { axes := st.axes ++ rest.flatMap fun p => p.2.axes.drop 1,
        values := (rest.map fun p => p.2.values).foldl concatCols st.values,
        meta := st.meta,
        columns := st.columns ++ rest.map Prod.fst,
        lastName := (rest.map Prod.fst).getLastD st.lastName } := by
  induction rest with
  | nil =>
    intro st h
    simp
  | cons q rest ih =>
    intro st h
    simp only [List.foldl_cons, concatStep_of_ne st q h]
    rw [ih _ (fun hc => h (List.append_eq_nil.mp hc).1)]
    simp only [List.flatMap_cons, List.map_cons, List.foldl_cons, List.getLastD_cons,
      List.append_assoc, List.singleton_append]

/-- C8 (counterexample to the claim as stated): with two inputs whose first
carries a `FIELDNAM` metadata entry, the result's metadata is NOT the first
input's metadata — `_concatenate_variables` overwrites `FIELDNAM` with the
last mapping key (impex/__init__.py lines 439-440). -/
theorem concatenate_variables_fieldnam_counterexample :
    ((_concatenate_variables [("a", vA), ("b", vB)] "pid").map SpeasyVariable.meta) =
      some [("FIELDNAM", "b")] ∧
    vA.meta = [("FIELDNAM", "a")] ∧
    some [("FIELDNAM", "b")] ≠ some (vA.meta) := by
  decide

/-- C8 (amended): on a non-empty mapping of sub-variables sharing time-axis
length `T` (values rows) and a non-empty first axes list, the result is one
variable whose values block is the column-wise concatenation (along the
non-time dimension) of the inputs' values in mapping order, whose time axis
is the first input's (length unchanged), whose non-time axes are the first
input's axes followed by each later input's non-time axes, and whose
metadata is the first input's except that `FIELDNAM`, when present and when
there are at least two inputs, is overwritten with the last mapping key; an
empty mapping yields `None`. -/
theorem concatenate_variables_columnwise (n₀ : String) (v₀ : SpeasyVariable)
    (rest : List (String × SpeasyVariable)) (pid : String) (T : Nat)
    (hax : v₀.axes ≠ [])
    (hT : ∀ p ∈ (n₀, v₀) :: rest, p.2.values.length = T) :
    (∀ q : String, _concatenate_variables [] q = none) ∧
    ∃ v, _concatenate_variables ((n₀, v₀) :: rest) pid = some v ∧
      v.values = specColConcat (((n₀, v₀) :: rest).map fun p => p.2.values) T ∧
      v.values.length = T ∧
      v.axes = v₀.axes ++ rest.flatMap (fun p => p.2.axes.drop 1) ∧
      v.axes.headD [] = v₀.axes.headD [] ∧
      v.name = pid ∧
      v.meta = (if rest.isEmpty then v₀.meta
        else if v₀.meta.any (fun kv => kv.1 == "FIELDNAM") then
          setFieldnam v₀.meta ((rest.map Prod.fst).getLastD n₀)
        else v₀.meta) := by
  refine ⟨fun q => rfl, ?_⟩
  have hv₀ : v₀.values.length = T := hT (n₀, v₀) (by simp)
  cases rest with
  | nil =>
    refine ⟨{ v₀ with name := pid }, rfl, ?_, ?_, by simp, rfl, rfl, by simp⟩
    · have h := foldl_concatCols_eq_specColConcat [] v₀.values T hv₀ (by simp)
      simpa using h
    · exact hv₀
  | cons r rest' =>
    have hstep0 : concatStep ⟨[], [], [], [], ""⟩ (n₀, v₀) =
        { axes := v₀.axes, values := v₀.values, meta := v₀.meta,
          columns := [n₀], lastName := n₀ } := by
      unfold concatStep
      rfl
    have hfold := concatStep_foldl (r :: rest')
      { axes := v₀.axes, values := v₀.values, meta := v₀.meta,
        columns := [n₀], lastName := n₀ } hax
    have hvals : ((r :: rest').map fun p => p.2.values).foldl concatCols v₀.values =
        specColConcat (((n₀, v₀) :: r :: rest').map fun p => p.2.values) T := by
      rw [foldl_concatCols_eq_specColConcat _ v₀.values T hv₀ ?hall]
      · rfl
      case hall =>
        intro x hx
        simp only [List.mem_map] at hx
        obtain ⟨p, hp, hpx⟩ := hx
        rw [← hpx]
        exact hT p (by simp [hp])
    have hmain : _concatenate_variables ((n₀, v₀) :: r :: rest') pid =
        some { axes := v₀.axes ++ (r :: rest').flatMap (fun p => p.2.axes.drop 1),
               values := specColConcat (((n₀, v₀) :: r :: rest').map fun p => p.2.values) T,
               meta := if v₀.meta.any (fun kv => kv.1 == "FIELDNAM") then
                   setFieldnam v₀.meta (((r :: rest').map Prod.fst).getLastD n₀)
                 else v₀.meta,
               name := pid,
               columns := [n₀] ++ (r :: rest').map Prod.fst } := by
      show some _ = some _
      rw [List.foldl_cons, hstep0, hfold, ← hvals]
    refine ⟨_, hmain, rfl, ?_, rfl, ?_, rfl, ?_⟩
    · simp [specColConcat]
    · cases hx : v₀.axes with
      | nil => exact absurd hx hax
      | cons a l => simp [hx]
    · rfl

/-- Witness for `concatenate_variables_columnwise`: the two concrete
variables `vA`, `vB` (time length 2) concatenate into one variable. -/
theorem concatenate_variables_columnwise_witness :
    ∃ v, _concatenate_variables [("a", vA), ("b", vB)] "pid" = some v ∧
      v.values = specColConcat ([("a", vA), ("b", vB)].map fun p => p.2.values) 2 := by
  obtain ⟨-, v, hv, hvals, -⟩ :=
    concatenate_variables_columnwise "a" vA [("b", vB)] "pid" 2 (by decide) (by decide)
  exact ⟨v, hv, hvals⟩

end Speasy
